import Mathlib

/-!
Verification of the changelog latest-release extraction logic of
`scripts/docs-automation/src/index.ts`.

The source function `extractLatestRelease` reads a changelog file, applies the
JavaScript regex `/^## \[?(\d+\.\d+\.\d+(?:-[a-zA-Z0-9.]+)?)\]?/gm` via
`String.prototype.matchAll`, and slices the text between the first match's
index and the second match's index (or end of text), trims it, and rejects
sections shorter than 50 characters.

We embed strings as `List Char` (JavaScript string indices are UTF-16 code
units; for the BMP characters involved this coincides with character counts).
The regex is deterministic (every quantified subpattern is followed by a
character it can never match), so it is embedded as a straight-line parser
`matchHeaderAt`; the `g`/`m` flags' scan-from-lastIndex behaviour of
`matchAll` is embedded by `gScan`, which attempts the anchored pattern only at
line starts and, after a match, resumes scanning just past the matched text.
-/

/-- JavaScript `\d`. -/
def isDigit (c : Char) : Bool := 48 ≤ c.toNat && c.toNat ≤ 57

/-- The character class `[a-zA-Z0-9.]` of the pre-release suffix. -/
def isSuffixChar (c : Char) : Bool :=
  isDigit c || (65 ≤ c.toNat && c.toNat ≤ 90) || (97 ≤ c.toNat && c.toNat ≤ 122) || c = '.'

/-- JavaScript line terminators (`\n`, `\r`, U+2028, U+2029): with the `m`
flag, `^` matches immediately after any of these. -/
def isLineTerminator (c : Char) : Bool :=
  c.toNat = 10 || c.toNat = 13 || c.toNat = 0x2028 || c.toNat = 0x2029

/-- The white-space set of JavaScript `String.prototype.trim`
(WhiteSpace ∪ LineTerminator of the ECMAScript grammar). -/
def isJSWhitespace (c : Char) : Bool :=
  let n := c.toNat
  n = 9 || n = 10 || n = 11 || n = 12 || n = 13 || n = 32 || n = 160 ||
  n = 0x1680 || (0x2000 ≤ n && n ≤ 0x200A) || n = 0x2028 || n = 0x2029 ||
  n = 0x202F || n = 0x205F || n = 0x3000 || n = 0xFEFF

/-- `String.prototype.trim`: strip leading and trailing white space. -/
def jsTrim (l : List Char) : List Char :=
  ((l.dropWhile isJSWhitespace).reverse.dropWhile isJSWhitespace).reverse

/-- `String.prototype.slice(start, stop)` for non-negative in-range-or-clamped
arguments: the code units with indices in `[start, stop)`. -/
def jsSlice (l : List Char) (start stop : Nat) : List Char :=
  (l.take stop).drop start

/-- The subpattern `\d+\.\d+\.\d+`: three non-empty digit runs separated by
dots. Returns the matched characters and the rest of the input. -/
def parseTriple (l : List Char) : Option (List Char × List Char) :=
  let (d1, r1) := l.span isDigit
  if d1 = [] then none else
  match r1 with
  | '.' :: r2 =>
    let (d2, r3) := r2.span isDigit
    if d2 = [] then none else
    match r3 with
    | '.' :: r4 =>
      let (d3, r5) := r4.span isDigit
      if d3 = [] then none else
      some (d1 ++ '.' :: d2 ++ '.' :: d3, r5)
    | _ => none
  | _ => none

/-- The subpattern `(?:-[a-zA-Z0-9.]+)?`: an optional hyphen followed by a
non-empty run of suffix characters; when the run after a hyphen would be
empty the optional group matches nothing. Returns the matched characters and
the rest of the input. -/
def parseSuffix (l : List Char) : List Char × List Char :=
  match l with
  | '-' :: r =>
    let (s, r2) := r.span isSuffixChar
    if s = [] then ([], l) else ('-' :: s, r2)
  | _ => ([], l)

/-- One attempt of the anchored pattern `## \[?(\d+\.\d+\.\d+(?:-[a-zA-Z0-9.]+)?)\]?`
at the head of `l`. On success returns the captured version characters and
the length of the whole match. -/
def matchHeaderAt (l : List Char) : Option (List Char × Nat) :=
  match l with
  | '#' :: '#' :: ' ' :: r0 =>
    let (br, r1) : Nat × List Char := match r0 with
      | '[' :: r => (1, r)
      | _ => (0, r0)
    match parseTriple r1 with
    | none => none
    | some (ver0, r2) =>
      let (suf, r3) := parseSuffix r2
      let close : Nat := match r3 with
        | ']' :: _ => 1
        | _ => 0
      some (ver0 ++ suf, 3 + br + (ver0 ++ suf).length + close)
  | _ => none

/-- `matchAll` with the `g` and `m` flags: attempt the `^`-anchored pattern at
every line-start position, and after a match resume just past its end (the
`lastIndex` behaviour of a global regex). The accumulator `i` is the absolute
index of the head of `l` in the original text; `atStart` records whether that
index is a line start. Produces the `(index, captured version)` pairs in order
of appearance. The recursion is driven by a fuel parameter so that it is
structural; every step consumes at least one character, so any fuel at least
the length of `l` gives the untruncated scan (`gScan_eq_of_le` below). -/
def gScan : Nat → List Char → Nat → Bool → List (Nat × List Char)
  | _, [], _, _ => []
  | 0, _ :: _, _, _ => []
  | fuel + 1, c :: rest, i, atStart =>
    if atStart then
      match matchHeaderAt (c :: rest) with
      | some (ver, len) => (i, ver) :: gScan fuel (rest.drop (len - 1)) (i + len) false
      | none => gScan fuel rest (i + 1) (isLineTerminator c)
    else gScan fuel rest (i + 1) (isLineTerminator c)

/-- All matches of `versionHeaderRegex` over the text, with their indices. -/
def versionMatches (content : List Char) : List (Nat × List Char) :=
  gScan content.length content 0 true

/-- The `LatestRelease` record of the source. -/
structure LatestRelease where
  packageName : String
  version : String
  content : String
deriving DecidableEq, Repr

/-- `extractLatestRelease` given the changelog text (the file-read step is
modelled separately as `extractLatestReleaseFS`): take the first regex match
as section start and version, the second match's index (or the end of the
text) as section end, slice, trim, and reject trimmed sections shorter than
50 characters. -/
def extractLatestRelease (content : String) (packageName : String) : Option LatestRelease :=
  match versionMatches content.data with
  | [] => none
  | (startIndex, version) :: rest =>
    let endIndex : Nat := match rest with
      | (i2, _) :: _ => i2
      | [] => content.data.length
    let sec := jsTrim (jsSlice content.data startIndex endIndex)
    if sec.length < 50 then none
    else some ⟨packageName, ⟨version⟩, ⟨sec⟩⟩

/-- The source function including its `fs.readFileSync` step: a failed read
throws (propagates as the `Except.error` branch); a successful read never
throws, and a text with no usable section is the ordinary `none` result. -/
def extractLatestReleaseFS (read : Except String String) (packageName : String) :
    Except String (Option LatestRelease) :=
  match read with
  | .error e => .error e
  | .ok content => .ok (extractLatestRelease content packageName)

/-- Outcome of `main`'s `generate-prompt` command. -/
inductive MainResult where
  | nothingToDo
  | generated (releases : List LatestRelease)
deriving DecidableEq, Repr

/-- The release-collection loop of `main`: for each package, a missing
changelog file (`fs.existsSync` false, modelled `none`) is skipped, a failing
read throws out of the loop, and otherwise the extraction result is appended
when present. -/
def collectReleases : List (String × Option (Except String String)) →
    Except String (List LatestRelease)
  | [] => .ok []
  | (_, none) :: files => collectReleases files
  | (_, some (.error e)) :: _ => .error e
  | (pkg, some (.ok content)) :: files =>
    match collectReleases files with
    | .error e => .error e
    | .ok rs =>
      match extractLatestRelease content pkg with
      | some r => .ok (r :: rs)
      | none => .ok rs

/-- `main`'s `generate-prompt` flow up to the zero-release check: an empty
release list prints "nothing to do" and exits with status 0; an uncaught
read error reaches `main().catch` which exits with status 1. -/
def mainGeneratePrompt (files : List (String × Option (Except String String))) :
    Except String MainResult :=
  match collectReleases files with
  | .error e => .error e
  | .ok [] => .ok .nothingToDo
  | .ok releases => .ok (.generated releases)

/-- The process exit status: `main().catch` exits 1 on a thrown error, and
both normal outcomes exit 0. -/
def processExitCode : Except String MainResult → Nat
  | .error _ => 1
  | .ok _ => 0

/-- Modelled from the spec: the version pattern `MAJOR.MINOR.PATCH` optionally
suffixed by a pre-release tag `-<alnum-and-dots>`, as an independent checker
of a whole string (used only to compare returned versions against the spec's
stated shape). -/
def specVersionPattern (l : List Char) : Bool :=
  let (d1, r1) := l.span isDigit
  if d1 = [] then false else
  match r1 with
  | '.' :: r2 =>
    let (d2, r3) := r2.span isDigit
    if d2 = [] then false else
    match r3 with
    | '.' :: r4 =>
      let (d3, r5) := r4.span isDigit
      if d3 = [] then false else
      match r5 with
      | [] => true
      | '-' :: r6 =>
        let (s, r7) := r6.span isSuffixChar
        if s = [] then false else r7 = []
      | _ => false
    | _ => false
  | _ => false

/-! ### Helper lemmas -/

/-- The fuel of `gScan` is irrelevant as soon as it covers the remaining
text, so `versionMatches` (fuel = text length) is the untruncated scan. -/
theorem gScan_eq_of_le (f₁ : Nat) : ∀ (f₂ : Nat) (l : List Char) (i : Nat) (a : Bool),
    l.length ≤ f₁ → l.length ≤ f₂ → gScan f₁ l i a = gScan f₂ l i a := by
  induction f₁ with
  | zero =>
    intro f₂ l i a h1 _
    have hl : l = [] := List.eq_nil_of_length_eq_zero (Nat.le_zero.mp h1)
    subst hl
    cases f₂ <;> rfl
  | succ f₁ ih =>
    intro f₂ l i a h1 h2
    cases l with
    | nil => cases f₂ <;> rfl
    | cons c rest =>
      cases f₂ with
      | zero => simp at h2
      | succ f₂ =>
        have hr1 : rest.length ≤ f₁ := by simp only [List.length_cons] at h1; omega
        have hr2 : rest.length ≤ f₂ := by simp only [List.length_cons] at h2; omega
        cases a with
        | false => simpa only [gScan, if_neg] using ih f₂ rest (i + 1) (isLineTerminator c) hr1 hr2
        | true =>
          simp only [gScan, if_pos]
          cases hm : matchHeaderAt (c :: rest) with
          | none => exact ih f₂ rest (i + 1) (isLineTerminator c) hr1 hr2
          | some p =>
            obtain ⟨ver, len⟩ := p
            have hd1 : (rest.drop (len - 1)).length ≤ f₁ := by
              rw [List.length_drop]; omega
            have hd2 : (rest.drop (len - 1)).length ≤ f₂ := by
              rw [List.length_drop]; omega
            exact congrArg (fun x => (i, ver) :: x)
              (ih f₂ (rest.drop (len - 1)) (i + len) false hd1 hd2)

/-- `extractLatestRelease` when the regex has no match. -/
theorem extract_of_no_match {content pkg : String}
    (h : versionMatches content.data = []) :
    extractLatestRelease content pkg = none := by
  unfold extractLatestRelease
  rw [h]

/-- `extractLatestRelease` when the regex has at least two matches: the
section runs from the first match's index to the second match's index. -/
theorem extract_of_two {content pkg : String} {i1 i2 : Nat} {v1 v2 : List Char}
    {rest : List (Nat × List Char)}
    (h : versionMatches content.data = (i1, v1) :: (i2, v2) :: rest) :
    extractLatestRelease content pkg =
      (if (jsTrim (jsSlice content.data i1 i2)).length < 50 then none
       else some ⟨pkg, ⟨v1⟩, ⟨jsTrim (jsSlice content.data i1 i2)⟩⟩) := by
  unfold extractLatestRelease
  rw [h]

/-- `extractLatestRelease` when the regex has exactly one match: the section
runs from the match's index to the end of the text. -/
theorem extract_of_one {content pkg : String} {i1 : Nat} {v1 : List Char}
    (h : versionMatches content.data = [(i1, v1)]) :
    extractLatestRelease content pkg =
      (if (jsTrim (jsSlice content.data i1 content.data.length)).length < 50 then none
       else some ⟨pkg, ⟨v1⟩, ⟨jsTrim (jsSlice content.data i1 content.data.length)⟩⟩) := by
  unfold extractLatestRelease
  rw [h]

/-- `takeWhile` over a block of satisfying characters followed by a failing
one. -/
theorem takeWhile_append_cons {p : Char → Bool} {a : List Char} {b : Char} (t : List Char)
    (ha : ∀ x ∈ a, p x = true) (hb : p b = false) :
    (a ++ b :: t).takeWhile p = a := by
  induction a with
  | nil => simp [List.takeWhile_cons, hb]
  | cons x xs ih =>
    have hx : p x = true := ha x (List.mem_cons_self x xs)
    simp [List.takeWhile_cons, hx, ih (fun y hy => ha y (List.mem_cons_of_mem x hy))]

/-- `dropWhile` over a block of satisfying characters followed by a failing
one. -/
theorem dropWhile_append_cons {p : Char → Bool} {a : List Char} {b : Char} (t : List Char)
    (ha : ∀ x ∈ a, p x = true) (hb : p b = false) :
    (a ++ b :: t).dropWhile p = b :: t := by
  induction a with
  | nil => simp [List.dropWhile_cons, hb]
  | cons x xs ih =>
    have hx : p x = true := ha x (List.mem_cons_self x xs)
    simp [List.dropWhile_cons, hx, ih (fun y hy => ha y (List.mem_cons_of_mem x hy))]

/-- `span` over a block of satisfying characters followed by a failing one. -/
theorem span_append_cons {p : Char → Bool} {a : List Char} {b : Char} (t : List Char)
    (ha : ∀ x ∈ a, p x = true) (hb : p b = false) :
    (a ++ b :: t).span p = (a, b :: t) := by
  rw [List.span_eq_take_drop, takeWhile_append_cons t ha hb, dropWhile_append_cons t ha hb]

/-- `span` over a list of satisfying characters. -/
theorem span_all {p : Char → Bool} {a : List Char} (ha : ∀ x ∈ a, p x = true) :
    a.span p = (a, []) := by
  rw [List.span_eq_take_drop, List.takeWhile_eq_self_iff.mpr ha,
    List.dropWhile_eq_nil_iff.mpr ha]

/-- Structure of a successful `parseTriple`: the matched characters are three
non-empty digit runs separated by dots. -/
theorem parseTriple_eq {l ver rest : List Char} (h : parseTriple l = some (ver, rest)) :
    ∃ d1 d2 d3 : List Char,
      (∀ x ∈ d1, isDigit x = true) ∧ (∀ x ∈ d2, isDigit x = true) ∧
      (∀ x ∈ d3, isDigit x = true) ∧ d1 ≠ [] ∧ d2 ≠ [] ∧ d3 ≠ [] ∧
      ver = d1 ++ '.' :: d2 ++ '.' :: d3 := by
  unfold parseTriple at h
  simp only [List.span_eq_take_drop] at h
  split at h
  · exact absurd h (by simp)
  · split at h
    · split at h
      · exact absurd h (by simp)
      · split at h
        · split at h
          · exact absurd h (by simp)
          · injection h with h1
            injection h1 with hver hrest
            refine ⟨_, _, _, ?_, ?_, ?_, ?_, ?_, ?_, hver.symm⟩ <;>
              first
                | exact fun x hx => List.mem_takeWhile_imp hx
                | assumption
        · exact absurd h (by simp)
    · exact absurd h (by simp)

/-- Structure of `parseSuffix`: the matched characters are either nothing or
a hyphen followed by a non-empty run of suffix characters. -/
theorem parseSuffix_eq {l suf rest : List Char} (h : parseSuffix l = (suf, rest)) :
    suf = [] ∨ ∃ s : List Char, s ≠ [] ∧ (∀ x ∈ s, isSuffixChar x = true) ∧ suf = '-' :: s := by
  unfold parseSuffix at h
  simp only [List.span_eq_take_drop] at h
  split at h
  · split at h
    · left
      injection h with h1 _
      exact h1.symm
    · right
      refine ⟨_, ‹_›, fun x hx => List.mem_takeWhile_imp hx, ?_⟩
      injection h with h1 _
      exact h1.symm
  · left
    injection h with h1 _
    exact h1.symm

/-- A version built from three digit runs and an optional suffix satisfies
the spec's `MAJOR.MINOR.PATCH[-alnum-and-dots]` pattern. -/
theorem specVersionPattern_of {d1 d2 d3 suf : List Char}
    (h1 : ∀ x ∈ d1, isDigit x = true) (h2 : ∀ x ∈ d2, isDigit x = true)
    (h3 : ∀ x ∈ d3, isDigit x = true)
    (n1 : d1 ≠ []) (n2 : d2 ≠ []) (n3 : d3 ≠ [])
    (hs : suf = [] ∨ ∃ s, s ≠ [] ∧ (∀ x ∈ s, isSuffixChar x = true) ∧ suf = '-' :: s) :
    specVersionPattern ((d1 ++ '.' :: d2 ++ '.' :: d3) ++ suf) = true := by
  have hdot : isDigit '.' = false := by decide
  have hdash : isDigit '-' = false := by decide
  rcases hs with rfl | ⟨s, hsne, hmem, rfl⟩
  · have e : (d1 ++ '.' :: d2 ++ '.' :: d3) ++ ([] : List Char) =
        d1 ++ '.' :: (d2 ++ '.' :: d3) := by simp [List.append_assoc]
    unfold specVersionPattern
    rw [e, span_append_cons _ h1 hdot]
    simp only
    rw [if_neg n1, span_append_cons _ h2 hdot]
    simp only
    rw [if_neg n2, span_all h3]
    simp only
    rw [if_neg n3]
  · have e : (d1 ++ '.' :: d2 ++ '.' :: d3) ++ ('-' :: s) =
        d1 ++ '.' :: (d2 ++ '.' :: (d3 ++ '-' :: s)) := by simp [List.append_assoc]
    unfold specVersionPattern
    rw [e, span_append_cons _ h1 hdot]
    simp only
    rw [if_neg n1, span_append_cons _ h2 hdot]
    simp only
    rw [if_neg n2, span_append_cons _ h3 hdash]
    simp only
    rw [if_neg n3, span_all hmem]
    simp only
    rw [if_neg hsne]
    simp

/-- Everything a successful header-pattern attempt guarantees: the captured
version satisfies the spec's version pattern, the whole match is at least 3
characters long, and the text starts with the literal `## `. -/
theorem matchHeaderAt_elim {l v : List Char} {len : Nat}
    (h : matchHeaderAt l = some (v, len)) :
    specVersionPattern v = true ∧ 3 ≤ len ∧ ∃ t, l = '#' :: '#' :: ' ' :: t := by
  unfold matchHeaderAt at h
  split at h
  · split at h
    split at h
    · exact absurd h (by simp)
    · rename_i htriple
      rcases hps : parseSuffix _ with ⟨suf, r3⟩
      rw [hps] at h
      simp only at h
      injection h with h1
      injection h1 with hv hlen
      refine ⟨?_, by omega, ⟨_, rfl⟩⟩
      obtain ⟨d1, d2, d3, m1, m2, m3, q1, q2, q3, hv0⟩ := parseTriple_eq htriple
      rw [← hv, hv0]
      exact specVersionPattern_of m1 m2 m3 q1 q2 q3 (parseSuffix_eq hps)
  · exact Option.noConfusion h

/-- Provenance of `parseTriple`: the matched characters are consumed verbatim
from the front of the input. -/
theorem parseTriple_append {l ver rest : List Char} (h : parseTriple l = some (ver, rest)) :
    l = ver ++ rest := by
  unfold parseTriple at h
  simp only [List.span_eq_take_drop] at h
  split at h
  · exact absurd h (by simp)
  · split at h
    · split at h
      · exact absurd h (by simp)
      · split at h
        · split at h
          · exact absurd h (by simp)
          · rename_i a2 heq1 hx1 hx2 a4 heq2 hx3
            injection h with h1
            injection h1 with hver hrest
            rw [← hver, ← hrest]
            calc l = l.takeWhile isDigit ++ ('.' :: a2) := by
                  rw [← heq1, List.takeWhile_append_dropWhile]
              _ = l.takeWhile isDigit ++
                    ('.' :: (a2.takeWhile isDigit ++ ('.' :: a4))) := by
                  rw [← heq2, List.takeWhile_append_dropWhile]
              _ = l.takeWhile isDigit ++ ('.' :: (a2.takeWhile isDigit ++
                    ('.' :: (a4.takeWhile isDigit ++ a4.dropWhile isDigit)))) := by
                  rw [List.takeWhile_append_dropWhile]
              _ = (l.takeWhile isDigit ++ '.' :: a2.takeWhile isDigit ++
                    '.' :: a4.takeWhile isDigit) ++ a4.dropWhile isDigit := by
                  simp [List.append_assoc]
        · exact absurd h (by simp)
    · exact absurd h (by simp)

/-- Provenance of `parseSuffix`: the matched characters are consumed verbatim
from the front of the input. -/
theorem parseSuffix_append {l suf rest : List Char} (h : parseSuffix l = (suf, rest)) :
    l = suf ++ rest := by
  unfold parseSuffix at h
  simp only [List.span_eq_take_drop] at h
  split at h
  · rename_i r
    split at h
    · injection h with h1 h2
      rw [← h1, ← h2]
      simp
    · injection h with h1 h2
      rw [← h1, ← h2]
      simp [List.takeWhile_append_dropWhile]
  · injection h with h1 h2
    rw [← h1, ← h2]
    simp

/-- Provenance of a successful header-pattern attempt: the captured version
is a verbatim contiguous run of the input's characters, sitting immediately
after the `## ` marker and an optional opening bracket. -/
theorem matchHeaderAt_capture {l v : List Char} {len : Nat}
    (h : matchHeaderAt l = some (v, len)) :
    ∃ pre rest : List Char, (pre = [] ∨ pre = ['[']) ∧
      l = '#' :: '#' :: ' ' :: (pre ++ (v ++ rest)) := by
  unfold matchHeaderAt at h
  split at h
  · rename_i r0
    split at h
    rename_i br r1 heqbr
    split at h
    · exact absurd h (by simp)
    · rename_i ver0 r2 htriple
      rcases hps : parseSuffix r2 with ⟨suf, r3⟩
      rw [hps] at h
      simp only at h
      injection h with h1
      injection h1 with hv hlen
      have htr : r1 = ver0 ++ r2 := parseTriple_append htriple
      have hsf : r2 = suf ++ r3 := parseSuffix_append hps
      split at heqbr
      · rename_i r
        injection heqbr with hbr hr1
        refine ⟨['['], r3, Or.inr rfl, ?_⟩
        rw [← hv, hr1, htr, hsf]
        simp [List.append_assoc]
      · injection heqbr with hbr hr1
        refine ⟨[], r3, Or.inl rfl, ?_⟩
        rw [← hv, hr1, htr, hsf]
        simp [List.append_assoc]
  · exact Option.noConfusion h

/-- Transfer of the scan invariant across one consumed character. -/
theorem gScan_sound_step {c : Char} {rest : List Char} {i j : Nat} {v : List Char}
    (hle : i + 1 ≤ j)
    (hm : ∃ len, matchHeaderAt (rest.drop (j - (i + 1))) = some (v, len))
    (hd : (j = i + 1 ∧ isLineTerminator c = true) ∨
      (i + 1 + 1 ≤ j ∧ ∃ c', rest[j - (i + 1) - 1]? = some c' ∧ isLineTerminator c' = true)) :
    i ≤ j ∧ (∃ len, matchHeaderAt ((c :: rest).drop (j - i)) = some (v, len)) ∧
      (i + 1 ≤ j ∧ ∃ c', (c :: rest)[j - i - 1]? = some c' ∧ isLineTerminator c' = true) := by
  obtain ⟨len, hmm⟩ := hm
  refine ⟨by omega, ⟨len, ?_⟩, hle, ?_⟩
  · have e1 : j - i = (j - (i + 1)) + 1 := by omega
    rw [e1, List.drop_succ_cons]
    exact hmm
  · rcases hd with ⟨hj, hterm⟩ | ⟨hlt, c', hc', htm⟩
    · refine ⟨c, ?_, hterm⟩
      have e0 : j - i - 1 = 0 := by omega
      rw [e0]
      exact List.getElem?_cons_zero
    · refine ⟨c', ?_, htm⟩
      have e2 : j - i - 1 = (j - (i + 1) - 1) + 1 := by omega
      rw [e2, List.getElem?_cons_succ]
      exact hc'

/-- Soundness of the scan: every emitted `(index, version)` pair comes from a
successful pattern attempt at that index, and that index is either the start
position of the whole scan (with its line-start flag set) or is immediately
preceded by a line terminator. -/
theorem gScan_sound (fuel : Nat) : ∀ (l : List Char) (i : Nat) (a : Bool) (j : Nat) (v : List Char),
    (j, v) ∈ gScan fuel l i a →
    i ≤ j ∧ (∃ len, matchHeaderAt (l.drop (j - i)) = some (v, len)) ∧
      ((j = i ∧ a = true) ∨
        (i + 1 ≤ j ∧ ∃ c, l[j - i - 1]? = some c ∧ isLineTerminator c = true)) := by
  induction fuel with
  | zero =>
    intro l i a j v h
    cases l <;> simp [gScan] at h
  | succ fuel ih =>
    intro l i a j v h
    cases l with
    | nil => simp [gScan] at h
    | cons c rest =>
      cases a with
      | false =>
        obtain ⟨hle, hm, hd⟩ := ih rest (i + 1) (isLineTerminator c) j v h
        obtain ⟨h1, h2, h3⟩ := gScan_sound_step hle hm hd
        exact ⟨h1, h2, Or.inr h3⟩
      | true =>
        cases hm : matchHeaderAt (c :: rest) with
        | none =>
          have hh : (j, v) ∈ gScan fuel rest (i + 1) (isLineTerminator c) := by
            simpa [gScan, hm] using h
          obtain ⟨hle, hmv, hd⟩ := ih rest (i + 1) (isLineTerminator c) j v hh
          obtain ⟨h1, h2, h3⟩ := gScan_sound_step hle hmv hd
          exact ⟨h1, h2, Or.inr h3⟩
        | some p =>
          obtain ⟨ver, len0⟩ := p
          have hrw : gScan (fuel + 1) (c :: rest) i true =
              (i, ver) :: gScan fuel (rest.drop (len0 - 1)) (i + len0) false := by
            simp [gScan, hm]
          rw [hrw] at h
          rcases List.mem_cons.mp h with he | ht
          · have hj : j = i := congrArg Prod.fst he
            have hv : v = ver := congrArg Prod.snd he
            subst hj
            subst hv
            refine ⟨le_refl _, ⟨len0, ?_⟩, Or.inl ⟨rfl, rfl⟩⟩
            simpa using hm
          · obtain ⟨hle, ⟨len, hmm⟩, hd⟩ := ih (rest.drop (len0 - 1)) (i + len0) false j v ht
            have hlen3 : 3 ≤ len0 := (matchHeaderAt_elim hm).2.1
            refine ⟨by omega, ⟨len, ?_⟩, Or.inr ⟨by omega, ?_⟩⟩
            · rw [List.drop_drop] at hmm
              have e1 : j - i = ((len0 - 1) + (j - (i + len0))) + 1 := by omega
              rw [e1, List.drop_succ_cons]
              exact hmm
            · rcases hd with ⟨_, hfalse⟩ | ⟨hlt, c', hc', htm⟩
              · simp at hfalse
              · refine ⟨c', ?_, htm⟩
                rw [List.getElem?_drop] at hc'
                have e2 : j - i - 1 = ((len0 - 1) + (j - (i + len0) - 1)) + 1 := by omega
                rw [e2, List.getElem?_cons_succ]
                exact hc'

/-! ### Claim theorems -/

/-- Claim C1: for every input text containing at least one version heading,
the extracted section starts at the first heading's offset and ends at the
second heading's offset when two or more headings exist (so the returned body
never includes the second heading's line or anything after it), and ends at
end-of-text when exactly one heading exists (given the trimmed body meets the
length threshold). -/
theorem claim_extraction_section_bounds (content pkg : String) :
    (∀ (i1 i2 : Nat) (v1 v2 : List Char) (rest : List (Nat × List Char)),
      versionMatches content.data = (i1, v1) :: (i2, v2) :: rest →
      ∀ r, extractLatestRelease content pkg = some r →
        r = ⟨pkg, ⟨v1⟩, ⟨jsTrim (jsSlice content.data i1 i2)⟩⟩) ∧
    (∀ (i1 : Nat) (v1 : List Char),
      versionMatches content.data = [(i1, v1)] →
      50 ≤ (jsTrim (jsSlice content.data i1 content.data.length)).length →
      extractLatestRelease content pkg =
        some ⟨pkg, ⟨v1⟩, ⟨jsTrim (jsSlice content.data i1 content.data.length)⟩⟩) := by
  constructor
  · intro i1 i2 v1 v2 rest h r hr
    rw [extract_of_two h] at hr
    by_cases hc : (jsTrim (jsSlice content.data i1 i2)).length < 50
    · rw [if_pos hc] at hr
      exact absurd hr (by simp)
    · rw [if_neg hc] at hr
      injection hr with hr1
      exact hr1.symm
  · intro i1 v1 h hlen
    rw [extract_of_one h, if_neg (by omega)]

/-- Witness for C1: both parts applied at concrete changelogs. -/
theorem claim_extraction_section_bounds_witness :
    (⟨"p", "4.87.0", "## [4.87.0]\n- Added widget X\n- Fixed bug Y in component Z"⟩ : LatestRelease) =
      ⟨"p", ⟨("4.87.0" : String).data⟩,
        ⟨jsTrim (jsSlice
          ("## [4.87.0]\n- Added widget X\n- Fixed bug Y in component Z\n## [4.86.0]\n- Older entry\n" : String).data
          0 58)⟩⟩ ∧
    extractLatestRelease "## [1.2.3]\n- a sufficiently long changelog body line for this test\n" "p" =
      some ⟨"p", ⟨("1.2.3" : String).data⟩,
        ⟨jsTrim (jsSlice
          ("## [1.2.3]\n- a sufficiently long changelog body line for this test\n" : String).data
          0 ("## [1.2.3]\n- a sufficiently long changelog body line for this test\n" : String).data.length)⟩⟩ :=
  ⟨(claim_extraction_section_bounds
      "## [4.87.0]\n- Added widget X\n- Fixed bug Y in component Z\n## [4.86.0]\n- Older entry\n" "p").1
      0 58 ("4.87.0" : String).data ("4.86.0" : String).data [] (by decide)
      ⟨"p", "4.87.0", "## [4.87.0]\n- Added widget X\n- Fixed bug Y in component Z"⟩ (by decide),
   (claim_extraction_section_bounds
      "## [1.2.3]\n- a sufficiently long changelog body line for this test\n" "p").2
      0 ("1.2.3" : String).data (by decide) (by decide)⟩

/-- Claim C2: for every input text that contains no line matching the
version-heading pattern, `extractLatestRelease` returns an absent result
(`none`), not an error. -/
theorem claim_no_heading_absent (content pkg : String)
    (h : versionMatches content.data = []) :
    extractLatestRelease content pkg = none :=
  extract_of_no_match h

/-- Witness for C2: a text with no version heading. -/
theorem claim_no_heading_absent_witness :
    versionMatches ("Just some text\nwith no headings at all" : String).data = [] ∧
    extractLatestRelease "Just some text\nwith no headings at all" "p" = none :=
  ⟨by decide, claim_no_heading_absent "Just some text\nwith no headings at all" "p" (by decide)⟩

/-- Claim C3: for every input text whose first version section, after
trimming, has length below the fixed 50-character threshold,
`extractLatestRelease` returns absent even though a heading was found; in
particular `"## [4.87.1]\n- bump\n"` yields absent. -/
theorem claim_short_section_absent :
    (∀ (content pkg : String) (i1 : Nat) (v1 : List Char)
        (rest : List (Nat × List Char)) (endIdx : Nat),
      versionMatches content.data = (i1, v1) :: rest →
      endIdx = (match rest with
        | [] => content.data.length
        | (k, _) :: _ => k) →
      (jsTrim (jsSlice content.data i1 endIdx)).length < 50 →
      extractLatestRelease content pkg = none) ∧
    (∀ pkg : String, extractLatestRelease "## [4.87.1]\n- bump\n" pkg = none) := by
  constructor
  · intro content pkg i1 v1 rest endIdx h he hlen
    cases rest with
    | nil =>
      simp only at he
      subst he
      rw [extract_of_one h, if_pos hlen]
    | cons m tl =>
      obtain ⟨i2, v2⟩ := m
      simp only at he
      subst he
      rw [extract_of_two h, if_pos hlen]
  · intro pkg
    have h : versionMatches ("## [4.87.1]\n- bump\n" : String).data =
        [(0, ("4.87.1" : String).data)] := by decide
    rw [extract_of_one h, if_pos (by decide)]

/-- Witness for C3: the example input has a trimmed first section of 18
characters, below the 50-character threshold, and yields absent. -/
theorem claim_short_section_absent_witness :
    (jsTrim (jsSlice ("## [4.87.1]\n- bump\n" : String).data 0 19)).length < 50 ∧
    extractLatestRelease "## [4.87.1]\n- bump\n" "p" = none :=
  ⟨by decide,
   claim_short_section_absent.1 "## [4.87.1]\n- bump\n" "p" 0 ("4.87.1" : String).data [] 19
     (by decide) (by decide) (by decide)⟩

/-- Claim C4: a heading in the bracketed form `## [1.2.3]` and one in the
unbracketed form `## 1.2.3` are both recognized as version headings and
yield the same extracted version value `"1.2.3"` (without brackets). -/
theorem claim_bracketed_and_plain_headings (pkg : String) :
    extractLatestRelease "## [1.2.3]\n- a sufficiently long changelog body line for this test\n" pkg =
      some ⟨pkg, "1.2.3", "## [1.2.3]\n- a sufficiently long changelog body line for this test"⟩ ∧
    extractLatestRelease "## 1.2.3\n- a sufficiently long changelog body line for this test\n" pkg =
      some ⟨pkg, "1.2.3", "## 1.2.3\n- a sufficiently long changelog body line for this test"⟩ := by
  constructor
  · have h : versionMatches
        ("## [1.2.3]\n- a sufficiently long changelog body line for this test\n" : String).data =
        [(0, ("1.2.3" : String).data)] := by decide
    rw [extract_of_one h, if_neg (by decide)]
    rfl
  · have h : versionMatches
        ("## 1.2.3\n- a sufficiently long changelog body line for this test\n" : String).data =
        [(0, ("1.2.3" : String).data)] := by decide
    rw [extract_of_one h, if_neg (by decide)]
    rfl

/-- Claim C5: for every extraction, the returned version is preserved
verbatim from the input — its characters are a contiguous run of the text
sitting immediately after the heading's `## ` marker and an optional opening
bracket, so any pre-release suffix carried by the heading is returned
character-for-character — and every returned version matches
`MAJOR.MINOR.PATCH` optionally followed by such a suffix; the concrete
`## [1.2.3-beta.1]` heading yields version `"1.2.3-beta.1"`. -/
theorem claim_prerelease_and_version_shape :
    (∀ (content pkg : String) (r : LatestRelease),
      extractLatestRelease content pkg = some r →
      specVersionPattern r.version.data = true ∧
      ∃ (i : Nat) (pre tail : List Char), (pre = [] ∨ pre = ['[']) ∧
        content.data.drop i = '#' :: '#' :: ' ' :: (pre ++ (r.version.data ++ tail))) ∧
    (∀ pkg : String,
      extractLatestRelease
        "## [1.2.3-beta.1]\n- a sufficiently long changelog body line for this test\n" pkg =
      some ⟨pkg, "1.2.3-beta.1",
        "## [1.2.3-beta.1]\n- a sufficiently long changelog body line for this test"⟩) := by
  constructor
  · intro content pkg r hr
    cases hv : versionMatches content.data with
    | nil =>
      rw [extract_of_no_match hv] at hr
      exact absurd hr (by simp)
    | cons m rest =>
      obtain ⟨i1, v1⟩ := m
      have hmem : (i1, v1) ∈ versionMatches content.data := by
        rw [hv]
        exact List.mem_cons_self _ _
      obtain ⟨_, ⟨len, hmh⟩, _⟩ :=
        gScan_sound content.data.length content.data 0 true i1 v1 hmem
      have hspec := (matchHeaderAt_elim hmh).1
      obtain ⟨pre, tail, hpre, hcap⟩ := matchHeaderAt_capture hmh
      cases rest with
      | nil =>
        rw [extract_of_one hv] at hr
        split at hr
        · exact absurd hr (by simp)
        · injection hr with hr1
          rw [← hr1]
          exact ⟨hspec, i1, pre, tail, hpre, hcap⟩
      | cons m2 rest2 =>
        obtain ⟨i2, v2⟩ := m2
        rw [extract_of_two hv] at hr
        split at hr
        · exact absurd hr (by simp)
        · injection hr with hr1
          rw [← hr1]
          exact ⟨hspec, i1, pre, tail, hpre, hcap⟩
  · intro pkg
    have h : versionMatches
        ("## [1.2.3-beta.1]\n- a sufficiently long changelog body line for this test\n" : String).data =
        [(0, ("1.2.3-beta.1" : String).data)] := by decide
    rw [extract_of_one h, if_neg (by decide)]
    rfl

/-- Witness for C5: the universal verbatim-provenance and shape property
applied at the beta example. -/
theorem claim_prerelease_and_version_shape_witness :
    extractLatestRelease
        "## [1.2.3-beta.1]\n- a sufficiently long changelog body line for this test\n" "p" =
      some ⟨"p", "1.2.3-beta.1",
        "## [1.2.3-beta.1]\n- a sufficiently long changelog body line for this test"⟩ ∧
    (specVersionPattern (LatestRelease.version ⟨"p", "1.2.3-beta.1",
        "## [1.2.3-beta.1]\n- a sufficiently long changelog body line for this test"⟩).data = true ∧
      ∃ (i : Nat) (pre tail : List Char), (pre = [] ∨ pre = ['[']) ∧
        ("## [1.2.3-beta.1]\n- a sufficiently long changelog body line for this test\n" : String).data.drop i =
          '#' :: '#' :: ' ' :: (pre ++ ((LatestRelease.version ⟨"p", "1.2.3-beta.1",
            "## [1.2.3-beta.1]\n- a sufficiently long changelog body line for this test"⟩).data ++ tail))) :=
  ⟨by decide,
   claim_prerelease_and_version_shape.1
     "## [1.2.3-beta.1]\n- a sufficiently long changelog body line for this test\n" "p"
     ⟨"p", "1.2.3-beta.1",
       "## [1.2.3-beta.1]\n- a sufficiently long changelog body line for this test"⟩
     (by decide)⟩

/-- Claim C6 counterexample: on the end-to-end example input the returned
body is not equal to the two bullet lines alone — the section slice starts at
the first heading's offset, so the body also contains the `## [4.87.0]`
heading line itself. -/
theorem claim_example_body_counterexample :
    extractLatestRelease
        "## [4.87.0]\n- Added widget X\n- Fixed bug Y in component Z\n## [4.86.0]\n- Older entry\n"
        "instantsearch.js" ≠
      some ⟨"instantsearch.js", "4.87.0",
        "- Added widget X\n- Fixed bug Y in component Z"⟩ := by
  decide

/-- Claim C6 as amended: on the end-to-end example input the extraction
returns version `4.87.0` and a body equal to the `4.87.0` heading line
followed by the two bullet lines (trimmed), excluding the `4.86.0` heading
and everything after it. -/
theorem claim_example_body_amended (pkg : String) :
    extractLatestRelease
        "## [4.87.0]\n- Added widget X\n- Fixed bug Y in component Z\n## [4.86.0]\n- Older entry\n"
        pkg =
      some ⟨pkg, "4.87.0",
        "## [4.87.0]\n- Added widget X\n- Fixed bug Y in component Z"⟩ := by
  have h : versionMatches
      ("## [4.87.0]\n- Added widget X\n- Fixed bug Y in component Z\n## [4.86.0]\n- Older entry\n" : String).data =
      [(0, ("4.87.0" : String).data), (58, ("4.86.0" : String).data)] := by decide
  rw [extract_of_two h, if_neg (by decide)]
  rfl

/-- Claim C7: extraction never raises an error — for every successfully read
text the result is a normal `ok` outcome (`some` or `none`, with `none` for
any text with no heading), while a storage-read failure is a distinct
failure class propagated to the caller. -/
theorem claim_failure_semantics :
    (∀ (content pkg : String),
      extractLatestReleaseFS (Except.ok content) pkg =
        Except.ok (extractLatestRelease content pkg)) ∧
    (∀ (content pkg : String), versionMatches content.data = [] →
      extractLatestReleaseFS (Except.ok content) pkg = Except.ok none) ∧
    (∀ (e pkg : String),
      extractLatestReleaseFS (Except.error e) pkg = Except.error e) := by
  refine ⟨fun _ _ => rfl, fun content pkg h => ?_, fun _ _ => rfl⟩
  show Except.ok (extractLatestRelease content pkg) = Except.ok none
  rw [extract_of_no_match h]

/-- Witness for C7: a malformed text is a normal `ok none`, not an error. -/
theorem claim_failure_semantics_witness :
    versionMatches ("no releases recorded here" : String).data = [] ∧
    extractLatestReleaseFS (Except.ok "no releases recorded here") "p" = Except.ok none :=
  ⟨by decide, claim_failure_semantics.2.1 "no releases recorded here" "p" (by decide)⟩

/-- The collection loop yields no releases when every changelog that exists
reads successfully and extracts nothing. -/
theorem collectReleases_eq_nil :
    ∀ (files : List (String × Option (Except String String))),
      (∀ pkg e, (pkg, some (Except.error e)) ∉ files) →
      (∀ pkg content, (pkg, some (Except.ok content)) ∈ files →
        extractLatestRelease content pkg = none) →
      collectReleases files = Except.ok []
  | [], _, _ => rfl
  | (pkg, none) :: t, hok, hnone =>
    collectReleases_eq_nil t
      (fun p e hm => hok p e (List.mem_cons_of_mem _ hm))
      (fun p c hm => hnone p c (List.mem_cons_of_mem _ hm))
  | (pkg, some (.error e)) :: t, hok, _ =>
    absurd (List.mem_cons_self _ _) (hok pkg e)
  | (pkg, some (.ok content)) :: t, hok, hnone => by
    have ht := collectReleases_eq_nil t
      (fun p e hm => hok p e (List.mem_cons_of_mem _ hm))
      (fun p c hm => hnone p c (List.mem_cons_of_mem _ hm))
    have h1 : extractLatestRelease content pkg = none :=
      hnone pkg content (List.mem_cons_self _ _)
    simp [collectReleases, ht, h1]

/-- Claim C8: when zero releases are extracted across all packages (every
present changelog reads successfully and extracts nothing), the overall
process reports "nothing to do" and exits cleanly with status zero. -/
theorem claim_zero_releases_clean_exit (files : List (String × Option (Except String String)))
    (hok : ∀ pkg e, (pkg, some (Except.error e)) ∉ files)
    (hnone : ∀ pkg content, (pkg, some (Except.ok content)) ∈ files →
      extractLatestRelease content pkg = none) :
    mainGeneratePrompt files = Except.ok MainResult.nothingToDo ∧
      processExitCode (mainGeneratePrompt files) = 0 := by
  have hcoll := collectReleases_eq_nil files hok hnone
  have h1 : mainGeneratePrompt files = Except.ok MainResult.nothingToDo := by
    unfold mainGeneratePrompt
    rw [hcoll]
  exact ⟨h1, by rw [h1]; rfl⟩

/-- Witness for C8: one short changelog and one missing changelog. -/
theorem claim_zero_releases_clean_exit_witness :
    mainGeneratePrompt
        [("instantsearch.js", some (Except.ok "## [4.87.1]\n- bump\n")),
         ("react-instantsearch", none)] = Except.ok MainResult.nothingToDo ∧
      processExitCode (mainGeneratePrompt
        [("instantsearch.js", some (Except.ok "## [4.87.1]\n- bump\n")),
         ("react-instantsearch", none)]) = 0 :=
  claim_zero_releases_clean_exit _
    (by
      intro pkg e hm
      simp at hm)
    (by
      intro pkg content hm
      simp at hm
      obtain ⟨rfl, rfl⟩ := hm
      decide)

/-- Claim C9 (implicit): the opening and closing brackets are each
independently optional, so a heading with only an opening bracket
(`## [1.2.3`) or only a closing bracket (`## 1.2.3]`) is still recognized
and yields version `"1.2.3"`. -/
theorem claim_mismatched_brackets_recognized (pkg : String) :
    extractLatestRelease "## [1.2.3\n- a sufficiently long changelog body line for this test\n" pkg =
      some ⟨pkg, "1.2.3", "## [1.2.3\n- a sufficiently long changelog body line for this test"⟩ ∧
    extractLatestRelease "## 1.2.3]\n- a sufficiently long changelog body line for this test\n" pkg =
      some ⟨pkg, "1.2.3", "## 1.2.3]\n- a sufficiently long changelog body line for this test"⟩ := by
  constructor
  · have h : versionMatches
        ("## [1.2.3\n- a sufficiently long changelog body line for this test\n" : String).data =
        [(0, ("1.2.3" : String).data)] := by decide
    rw [extract_of_one h, if_neg (by decide)]
    rfl
  · have h : versionMatches
        ("## 1.2.3]\n- a sufficiently long changelog body line for this test\n" : String).data =
        [(0, ("1.2.3" : String).data)] := by decide
    rw [extract_of_one h, if_neg (by decide)]
    rfl

/-- Claim C10 (implicit): a version heading is recognized only at a position
that is the start of the text or immediately preceded by a line terminator,
and whose text begins with exactly `## `; in particular deeper-level
headings, indented headings, and mid-line occurrences never match. -/
theorem claim_heading_only_at_line_start :
    (∀ (s : List Char) (i : Nat) (v : List Char), (i, v) ∈ versionMatches s →
      (i = 0 ∨ ∃ c, s[i - 1]? = some c ∧ isLineTerminator c = true) ∧
        ∃ t, s.drop i = '#' :: '#' :: ' ' :: t) ∧
    versionMatches ("### 1.2.3\n- a deeper heading never matches" : String).data = [] ∧
    versionMatches ("  ## 1.2.3\n- an indented heading never matches" : String).data = [] ∧
    versionMatches ("intro ## [1.2.3] mid-line never matches" : String).data = [] := by
  refine ⟨?_, by decide, by decide, by decide⟩
  intro s i v h
  obtain ⟨_, ⟨len, hm⟩, hd⟩ := gScan_sound s.length s 0 true i v h
  constructor
  · rcases hd with ⟨rfl, _⟩ | ⟨hlt, c, hc, htm⟩
    · exact Or.inl rfl
    · exact Or.inr ⟨c, hc, htm⟩
  · exact (matchHeaderAt_elim hm).2.2

/-- Witness for C10: the line-start property applied at a concrete match. -/
theorem claim_heading_only_at_line_start_witness :
    ((0, ("4.87.1" : String).data) ∈ versionMatches ("## [4.87.1]\n- bump\n" : String).data) ∧
    ((0 = 0 ∨ ∃ c, (("## [4.87.1]\n- bump\n" : String).data)[0 - 1]? = some c ∧
        isLineTerminator c = true) ∧
      ∃ t, ("## [4.87.1]\n- bump\n" : String).data.drop 0 = '#' :: '#' :: ' ' :: t) :=
  ⟨by decide,
   claim_heading_only_at_line_start.1 ("## [4.87.1]\n- bump\n" : String).data 0
     ("4.87.1" : String).data (by decide)⟩
